import Mathlib

/-!
Verification development for the HealthChat profile-cache subsystem and the
two excerpted UI policy functions (widget permission pre-approval, extended
profile settings validation).

The `UserProfilesStore` core is modelled from the specification (its source
is not part of the excerpt; only its UI callers are), as a pure state-passing
embedding.  Remote calls are modelled as oracle arguments: each fetch-style
operation takes the remote's response as an explicit parameter and reports
the number of remote calls it made.  The two UI functions
(`preapproveCapabilities`, the extended-profile settings form handlers) are
translated directly from their TypeScript source.
-/

/-- Basic profile record: display name and avatar URL, each optional.
Modelled from the spec: `Profile: { displayName: string?, avatarUrl: string? }`. -/
structure Profile where
  displayName : Option String
  avatarUrl : Option String
deriving DecidableEq, Repr

/-- A remote-call failure.  `recognized = true` models an error of the kind
the store knows how to record (a protocol-level error); `recognized = false`
models an error of an unrecognized kind.  `code` is an abstract payload
distinguishing errors.  Modelled from the spec: lookup errors are recorded
"unless the error is of an unrecognized kind". -/
structure RemoteErr where
  recognized : Bool
  code : String
deriving DecidableEq, Repr

/-- Bounded key/value store with least-recently-used eviction.
Modelled from the spec: "bounded key/value store that evicts the least
recently used entry when capacity is exceeded".  `entries` is ordered most
recently written first; writing truncates to `capacity`. -/
structure LruCache (κ β : Type) where
  capacity : Nat
  entries : List (κ × β)
deriving Repr

/-- A fresh empty cache of the given capacity. -/
def LruCache.emptyCache (cap : Nat) : LruCache κ β :=
  { capacity := cap, entries := [] }

/-- Read-only lookup. -/
def LruCache.get [DecidableEq κ] (m : LruCache κ β) (k : κ) : Option β :=
  (m.entries.find? (fun e => decide (e.1 = k))).map (fun e => e.2)

/-- Write `k ↦ v`, moving `k` to the front and evicting beyond capacity. -/
def LruCache.set [DecidableEq κ] (m : LruCache κ β) (k : κ) (v : β) : LruCache κ β :=
  { m with entries := ((k, v) :: m.entries.filter (fun e => decide (e.1 ≠ k))).take m.capacity }

/-- Remove any entry for `k`. -/
def LruCache.remove [DecidableEq κ] (m : LruCache κ β) (k : κ) : LruCache κ β :=
  { m with entries := m.entries.filter (fun e => decide (e.1 ≠ k)) }

/-- Unbounded association-list lookup (for the two unbounded mappings). -/
def assocGet [DecidableEq κ] (l : List (κ × β)) (k : κ) : Option β :=
  (l.find? (fun e => decide (e.1 = k))).map (fun e => e.2)

/-- Unbounded association-list write. -/
def assocSet [DecidableEq κ] (l : List (κ × β)) (k : κ) (v : β) : List (κ × β) :=
  (k, v) :: l.filter (fun e => decide (e.1 ≠ k))

/-- Unbounded association-list removal. -/
def assocRemove [DecidableEq κ] (l : List (κ × β)) (k : κ) : List (κ × β) :=
  l.filter (fun e => decide (e.1 ≠ k))

/-- Shapes a raw extended-profile value returned by the remote can take.
Modelled from the spec: accepted shapes are null, string, number, boolean and
non-null object; other shapes (an undefined or function-typed value) must be
coerced.  JS numbers are abstracted as integers (the store never computes on
them); object payloads are abstracted as string field lists. -/
inductive RawValue where
  | null
  | str (s : String)
  | num (n : Int)
  | boolean (b : Bool)
  | obj (fields : List (String × String))
  | undef
  | func
deriving DecidableEq, Repr

/-- Values actually stored in the extended-property cache: the accepted
shapes only.  Modelled from the spec: "value is one of {null, string,
number, boolean, structured-object}". -/
inductive ExtValue where
  | null
  | str (s : String)
  | num (n : Int)
  | boolean (b : Bool)
  | obj (fields : List (String × String))
deriving DecidableEq, Repr

/-- Validation/coercion of a raw remote value, returning the stored value and
whether a warning was emitted.  Modelled from the spec: "only null, string,
number, boolean, or non-null object are accepted; anything else (e.g., a
function-typed or undefined value) is coerced to null with a warning". -/
def coerceRawValue : RawValue → ExtValue × Bool
  | .null => (.null, false)
  | .str s => (.str s, false)
  | .num n => (.num n, false)
  | .boolean b => (.boolean b, false)
  | .obj fields => (.obj fields, false)
  | .undef => (.null, true)
  | .func => (.null, true)

/-- State of the profile store.  Modelled from the spec: "three bounded
(capacity N, default 500) least-recently-used caches — profiles,
profile-lookup-errors, known-profiles — plus two unbounded mappings for
per-server extended-profile support flags and per-user extended-property
values".  A cached profile value of `none` is the "looked up, does not
exist" tombstone; absence from the cache means "never looked up". -/
structure UserProfilesStore where
  profiles : LruCache String (Option Profile)
  profileLookupErrors : LruCache String RemoteErr
  knownProfiles : LruCache String (Option Profile)
  extendedProfileSupport : List (String × Bool)
  extendedProfiles : List (String × List (String × ExtValue))

/-- A store as constructed, with all three bounded caches empty at the given
capacity (default 500 in the source) and both unbounded maps empty. -/
def emptyStore (cap : Nat) : UserProfilesStore :=
  { profiles := .emptyCache cap
    profileLookupErrors := .emptyCache cap
    knownProfiles := .emptyCache cap
    extendedProfileSupport := []
    extendedProfiles := [] }

/-- Modelled from the spec: "flush() — replaces all internal stores with
fresh empty instances". -/
def flush (s : UserProfilesStore) : UserProfilesStore :=
  { profiles := .emptyCache s.profiles.capacity
    profileLookupErrors := .emptyCache s.profileLookupErrors.capacity
    knownProfiles := .emptyCache s.knownProfiles.capacity
    extendedProfileSupport := []
    extendedProfiles := [] }

/-- Modelled from the spec: "getProfile(userId) → Profile | not-found |
not-cached — synchronous read-only lookup; never triggers network access".
`none` is "not cached", `some none` is the confirmed-absent tombstone,
`some (some p)` is a cached profile.  The function takes no remote oracle
and returns no call count: it cannot touch the network by construction. -/
def getProfile (s : UserProfilesStore) (userId : String) : Option (Option Profile) :=
  s.profiles.get userId

/-- Modelled from the spec: "getProfileLookupError(userId) → error | none —
exposes the last recorded lookup failure for diagnostics". -/
def getProfileLookupError (s : UserProfilesStore) (userId : String) : Option RemoteErr :=
  s.profileLookupErrors.get userId

/-- Modelled from the spec: "getOnlyKnownProfile(userId) → Profile |
not-found | not-cached", the synchronous read of the known-profile cache. -/
def getOnlyKnownProfile (s : UserProfilesStore) (userId : String) : Option (Option Profile) :=
  s.knownProfiles.get userId

/-- Result of a profile fetch: a resolved value (profile or not-found
tombstone) or a rethrown error. -/
inductive FetchOutcome where
  | value (p : Option Profile)
  | thrown (e : RemoteErr)
deriving DecidableEq, Repr

/-- Modelled from the spec: "fetchProfile(userId, options?) — unconditionally
queries RemoteDirectory, overwriting whatever is cached, and returns the
result.  On failure, records the error in the lookup-error cache (unless the
error is of an unrecognized kind, in which case no error is recorded) and
resolves to not-found, or rethrows if shouldThrow was requested.  Before
each attempt, any previously recorded lookup error for that user identifier
is cleared."  `remote` is the remote's response for this call; exactly one
remote call is made. -/
def fetchProfile (remote : Except RemoteErr Profile) (shouldThrow : Bool)
    (userId : String) (s : UserProfilesStore) : FetchOutcome × UserProfilesStore :=
  let s1 := { s with profileLookupErrors := s.profileLookupErrors.remove userId }
  match remote with
  | .ok p => (.value (some p), { s1 with profiles := s1.profiles.set userId (some p) })
  | .error e =>
      let s2 := if e.recognized then
          { s1 with profileLookupErrors := s1.profileLookupErrors.set userId e }
        else s1
      if shouldThrow then (.thrown e, s2)
      else (.value none, { s2 with profiles := s2.profiles.set userId none })

/-- Result of `getOrFetchProfile`: outcome, post-state, and how many calls
were made to `RemoteDirectory.getProfileInfo`. -/
structure GetOrFetchRes where
  outcome : FetchOutcome
  store : UserProfilesStore
  remoteCalls : Nat

/-- Modelled from the spec: "getOrFetchProfile(userId, options?) — returns
cached value if present; otherwise delegates to fetch". -/
def getOrFetchProfile (remote : Except RemoteErr Profile) (shouldThrow : Bool)
    (userId : String) (s : UserProfilesStore) : GetOrFetchRes :=
  match getProfile s userId with
  | some p => { outcome := .value p, store := s, remoteCalls := 0 }
  | none =>
      let r := fetchProfile remote shouldThrow userId s
      { outcome := r.1, store := r.2, remoteCalls := 1 }

/-- Result of the gated known-profile fetch. -/
inductive KnownFetchOutcome where
  | unknownUser
  | value (p : Option Profile)
deriving DecidableEq, Repr

/-- Result record for `fetchOnlyKnownProfile`. -/
structure KnownFetchRes where
  outcome : KnownFetchOutcome
  store : UserProfilesStore
  remoteCalls : Nat

/-- Modelled from the spec: "fetchOnlyKnownProfile(userId) → Profile |
not-found | unknown-user — as above but gated: if the user identifier is
neither already cached as known nor currently sharing any room with the
local user, resolves to unknown-user without making a network call".  The
ungated path mirrors `fetchProfile` but writes the known-profile cache.
`rooms` is the current room list, each room given by its member identifiers. -/
def fetchOnlyKnownProfile (remote : Except RemoteErr Profile)
    (rooms : List (List String)) (userId : String) (s : UserProfilesStore) : KnownFetchRes :=
  if (s.knownProfiles.get userId).isSome || rooms.any (fun r => r.contains userId) then
    let s1 := { s with profileLookupErrors := s.profileLookupErrors.remove userId }
    match remote with
    | .ok p =>
        { outcome := .value (some p)
          store := { s1 with knownProfiles := s1.knownProfiles.set userId (some p) }
          remoteCalls := 1 }
    | .error e =>
        let s2 := if e.recognized then
            { s1 with profileLookupErrors := s1.profileLookupErrors.set userId e }
          else s1
        { outcome := .value none
          store := { s2 with knownProfiles := s2.knownProfiles.set userId none }
          remoteCalls := 1 }
  else
    { outcome := .unknownUser, store := s, remoteCalls := 0 }

/-- The server portion of a user identifier: the text after the first ':'.
Modelled from the spec: "derives the server portion of the user identifier
(text after first ':')". -/
def serverFromUserId (userId : String) : String :=
  match userId.toList.dropWhile (fun c => decide (c ≠ ':')) with
  | [] => ""
  | _ :: rest => String.mk rest

/-- Modelled from the spec: "doesServerSupportExtendedProfiles(userId) —
returns a memoized flag if already checked for that server, otherwise asks
RemoteDirectory; on failure, memoizes false (fail-closed) and does not
propagate the error". -/
def doesServerSupportExtendedProfiles (remote : Except RemoteErr Bool)
    (userId : String) (s : UserProfilesStore) : Bool × UserProfilesStore :=
  let server := serverFromUserId userId
  match assocGet s.extendedProfileSupport server with
  | some b => (b, s)
  | none =>
      match remote with
      | .ok b => (b, { s with extendedProfileSupport := assocSet s.extendedProfileSupport server b })
      | .error _ => (false, { s with extendedProfileSupport := assocSet s.extendedProfileSupport server false })

/-- Modelled from the spec: "getExtendedProfileProperty(userId, key) →
value | uncached", the synchronous read of the two-level extended-property
mapping. -/
def getExtendedProfileProperty (s : UserProfilesStore) (userId key : String) : Option ExtValue :=
  (assocGet s.extendedProfiles userId).bind (fun m => assocGet m key)

/-- Write into the two-level per-user extended-property mapping. -/
def extSetValue (m : List (String × List (String × ExtValue)))
    (userId key : String) (v : ExtValue) : List (String × List (String × ExtValue)) :=
  assocSet m userId (assocSet ((assocGet m userId).getD []) key v)

/-- Remove a key from the two-level per-user extended-property mapping. -/
def extRemoveValue (m : List (String × List (String × ExtValue)))
    (userId key : String) : List (String × List (String × ExtValue)) :=
  match assocGet m userId with
  | some userMap => assocSet m userId (assocRemove userMap key)
  | none => m

/-- Result record for the extended-property fetch path: coerced value,
whether a coercion warning was emitted, and the post-state. -/
structure ExtFetchRes where
  value : ExtValue
  warned : Bool
  store : UserProfilesStore

/-- Modelled from the spec: "fetchExtendedProfileProperty — fetch failures
resolve to null (not an error value) and are logged, never thrown.  Returned
raw values are validated/coerced ... the value is never passed through
unchanged."  On success the coerced value is stored and returned. -/
def fetchExtendedProfileProperty (remote : Except RemoteErr RawValue)
    (userId key : String) (s : UserProfilesStore) : ExtFetchRes :=
  match remote with
  | .ok raw =>
      let cv := coerceRawValue raw
      { value := cv.1, warned := cv.2
        store := { s with extendedProfiles := extSetValue s.extendedProfiles userId key cv.1 } }
  | .error _ => { value := .null, warned := false, store := s }

/-- Modelled from the spec: "getOrFetchExtendedProfileProperty — mirrors the
profile accessors but keyed by (userId, propertyKey)": cached value if
present, otherwise delegate to the fetch path. -/
def getOrFetchExtendedProfileProperty (remote : Except RemoteErr RawValue)
    (userId key : String) (s : UserProfilesStore) : ExtFetchRes :=
  match getExtendedProfileProperty s userId key with
  | some v => { value := v, warned := false, store := s }
  | none => fetchExtendedProfileProperty remote userId key s

/-- Modelled from the spec: "setExtendedProfileProperty(key, value) → success
boolean — always act on the local user's identifier; apply the remote write
first, and only update the local cache entry after remote confirmation;
return false (never throw) on any remote failure".  `remoteOk` is whether
the remote write succeeded. -/
def setExtendedProfileProperty (remoteOk : Bool) (localUser key : String)
    (v : ExtValue) (s : UserProfilesStore) : Bool × UserProfilesStore :=
  if remoteOk then
    (true, { s with extendedProfiles := extSetValue s.extendedProfiles localUser key v })
  else
    (false, s)

/-- Modelled from the spec: "deleteExtendedProfileProperty(key) → success
boolean", symmetric to `setExtendedProfileProperty` for removal. -/
def deleteExtendedProfileProperty (remoteOk : Bool) (localUser key : String)
    (s : UserProfilesStore) : Bool × UserProfilesStore :=
  if remoteOk then
    (true, { s with extendedProfiles := extRemoveValue s.extendedProfiles localUser key })
  else
    (false, s)

/-- The payload of a membership-change notification: the changed member's
user identifier, display name and avatar reference.  Modelled from the spec
(external interfaces of the MembershipEventFeed). -/
structure MembershipRecord where
  userId : String
  displayName : Option String
  avatarUrl : Option String
deriving DecidableEq, Repr

/-- Plain field-by-field comparison of a cached profile against the freshly
observed membership record. -/
def profileMatchesMember (p : Profile) (m : MembershipRecord) : Bool :=
  decide (p.displayName = m.displayName) && decide (p.avatarUrl = m.avatarUrl)

/-- Modelled from the spec: "onRoomMembershipEvent(event, member) — for the
affected user identifier, if a cached Profile or KnownProfile exists whose
display name or avatar URL differs from the freshly observed membership
record's values, evict that cache entry".  A cached tombstone is not a
cached Profile and is left alone. -/
def onRoomMembershipEvent (m : MembershipRecord) (s : UserProfilesStore) : UserProfilesStore :=
  let profiles' := match s.profiles.get m.userId with
    | some (some p) =>
        if profileMatchesMember p m then s.profiles else s.profiles.remove m.userId
    | _ => s.profiles
  let known' := match s.knownProfiles.get m.userId with
    | some (some p) =>
        if profileMatchesMember p m then s.knownProfiles else s.knownProfiles.remove m.userId
    | _ => s.knownProfiles
  { s with profiles := profiles', knownProfiles := known' }

/-! ## Widget permission customisation (src/customisations/WidgetPermissions.ts) -/

/-- A widget as seen by the permission customisation: only its template URL
matters, and it may be undefined. -/
structure Widget where
  templateUrl : Option String

/-- Substring test, translating JavaScript `String.prototype.includes`:
`containsSubstr s pat` is true when `pat` occurs contiguously in `s`. -/
def containsSubstr (s pat : String) : Bool :=
  (List.range (s.toList.length + 1)).any
    (fun i => decide ((s.toList.drop i).take pat.toList.length = pat.toList))

/-- Declarative reading of "contains the substring": some decomposition
around the pattern exists. -/
def SubstrShape (s pat : String) : Prop :=
  ∃ pre post : List Char, s.toList = pre ++ pat.toList ++ post

/-- The domain checked by the customisation. -/
def healthchatDomain : String := "api.healthchat.ch"

/-- Translation of `WidgetPermissionCustomisations.preapproveCapabilities`:
if the widget's template URL is defined and contains "api.healthchat.ch",
resolve to a set with exactly the requested capabilities; otherwise resolve
to `undefined` (here `none`), deferring to the default behaviour.  The
function is total, so it never throws. -/
def preapproveCapabilities (widget : Widget) (requestedCapabilities : List String) :
    Option (List String) :=
  match widget.templateUrl with
  | some url =>
      if containsSubstr url healthchatDomain then some requestedCapabilities else none
  | none => none

/-! ## Extended profile settings form (src/components/views/settings/ExtendedProfileSettings.tsx) -/

def EXT_PROFILE_KEY_TITLE : String := "io.element.profile.title"
def EXT_PROFILE_KEY_SPECIALIZATION : String := "io.element.profile.specialization"
def EXT_PROFILE_KEY_WEBSITE : String := "io.element.profile.website"
def EXT_PROFILE_KEY_FURTHER_INFO : String := "io.element.profile.further_info"
def EXT_PROFILE_KEY_PRACTICE_NAME : String := "io.element.profile.practice_name"
def EXT_PROFILE_KEY_BUSINESS_STREET : String := "io.element.profile.business_street"
def EXT_PROFILE_KEY_BUSINESS_STREET_NR : String := "io.element.profile.business_street_nr"
def EXT_PROFILE_KEY_BUSINESS_CITY : String := "io.element.profile.business_city"
def EXT_PROFILE_KEY_BUSINESS_PLZ : String := "io.element.profile.business_plz"
def EXT_PROFILE_KEY_BUSINESS_EMAIL : String := "io.element.profile.business_email"
def EXT_PROFILE_KEY_BUSINESS_TEL : String := "io.element.profile.business_tel"

/-- The character class `\s` of JavaScript regular expressions (whitespace,
including the Unicode space separators, BOM and line separators). -/
def isJsSpace (c : Char) : Bool :=
  c = ' ' || c = '\t' || c = '\n' || c = '\r' || c = '\x0b' || c = '\x0c' ||
  c = ' ' || c = ' ' || (0x2000 ≤ c.toNat && c.toNat ≤ 0x200a) ||
  c = ' ' || c = ' ' || c = ' ' || c = ' ' ||
  c = '　' || c = '﻿'

/-- The character class `[^\s@]` of the email pattern. -/
def emailAtom (c : Char) : Bool :=
  !(isJsSpace c) && !(decide (c = '@'))

/-- Matcher for the domain part `[^\s@]+\.[^\s@]+` of the email pattern:
all characters are `[^\s@]` and some '.' sits strictly inside. -/
def emailDomainOk (d : List Char) : Bool :=
  d.all emailAtom &&
    (List.range d.length).any
      (fun j => decide (d.getD j ' ' = '.') && decide (0 < j) && decide (j + 1 < d.length))

/-- Matcher for the full anchored pattern `^[^\s@]+@[^\s@]+\.[^\s@]+$` used
by `onBusinessEmailChanged` (line 542 of the source): a nonempty `[^\s@]+`
local part, an '@', and a matching domain part. -/
def matchesEmailRe (s : String) : Bool :=
  let l := s.toList
  (List.range l.length).any
    (fun i => decide (l.getD i ' ' = '@') && decide (0 < i) &&
      (l.take i).all emailAtom && emailDomainOk (l.drop (i + 1)))

/-- The character class `[0-9+\-() ]` of the telephone pattern. -/
def telChar (c : Char) : Bool :=
  c.isDigit || c = '+' || c = '-' || c = '(' || c = ')' || c = ' '

/-- Matcher for the anchored pattern `^[0-9+\-() ]+$` used by
`onBusinessTelChanged` (line 551 of the source). -/
def matchesTelRe (s : String) : Bool :=
  !s.toList.isEmpty && s.toList.all telChar

/-- Declarative reading of the email pattern: the character list splits as
local-part ++ '@' ++ domain-head ++ '.' ++ domain-tail with every segment
nonempty and every segment character in `[^\s@]`. -/
def EmailShape (l : List Char) : Prop :=
  ∃ a b c : List Char,
    l = a ++ '@' :: (b ++ '.' :: c) ∧ a ≠ [] ∧ b ≠ [] ∧ c ≠ [] ∧
    (∀ x ∈ a, emailAtom x = true) ∧ (∀ x ∈ b, emailAtom x = true) ∧
    (∀ x ∈ c, emailAtom x = true)

/-- Declarative reading of the telephone pattern: nonempty and all characters
in `[0-9+\-() ]`. -/
def TelShape (l : List Char) : Prop :=
  l ≠ [] ∧ ∀ x ∈ l, telChar x = true

/-- The eleven editable fields of the extended-profile settings form. -/
structure FormFields where
  title : String
  specialization : String
  website : String
  furtherInfo : String
  practiceName : String
  businessStreet : String
  businessStreetNr : String
  businessCity : String
  businessPlz : String
  businessEmail : String
  businessTel : String
deriving DecidableEq, Repr

/-- Component state relevant to saving: current field values, the originals
they are compared against, the two validation flags and the save-error flag. -/
structure FormState where
  fields : FormFields
  originals : FormFields
  businessEmailValid : Bool
  businessTelValid : Bool
  saveError : Bool
deriving DecidableEq, Repr

/-- Translation of the `hasChanges` computation: some field differs from its
original. -/
def isModified (f : FormState) : Bool :=
  decide (f.fields.title ≠ f.originals.title) ||
  decide (f.fields.specialization ≠ f.originals.specialization) ||
  decide (f.fields.website ≠ f.originals.website) ||
  decide (f.fields.furtherInfo ≠ f.originals.furtherInfo) ||
  decide (f.fields.practiceName ≠ f.originals.practiceName) ||
  decide (f.fields.businessStreet ≠ f.originals.businessStreet) ||
  decide (f.fields.businessStreetNr ≠ f.originals.businessStreetNr) ||
  decide (f.fields.businessCity ≠ f.originals.businessCity) ||
  decide (f.fields.businessPlz ≠ f.originals.businessPlz) ||
  decide (f.fields.businessEmail ≠ f.originals.businessEmail) ||
  decide (f.fields.businessTel ≠ f.originals.businessTel)

/-- Translation of `onBusinessEmailChanged`: store the value and mark it
valid when empty or matching the email pattern. -/
def onBusinessEmailChanged (v : String) (f : FormState) : FormState :=
  { f with
    fields := { f.fields with businessEmail := v }
    businessEmailValid := decide (v = "") || matchesEmailRe v }

/-- Translation of `onBusinessTelChanged`: store the value and mark it valid
when empty or matching the telephone pattern. -/
def onBusinessTelChanged (v : String) (f : FormState) : FormState :=
  { f with
    fields := { f.fields with businessTel := v }
    businessTelValid := decide (v = "") || matchesTelRe v }

/-- Translation of `onSave`: no-op when nothing is modified; when a contact
field is invalid, set the save-error flag and return without issuing any
`setExtendedProfileProperty` call; otherwise issue one call per modified
field (in source order) and promote the current values to originals.  The
first component is the list of `(key, value)` pairs passed to
`setExtendedProfileProperty`. -/
def onSave (f : FormState) : List (String × String) × FormState :=
  if isModified f = false then ([], f)
  else if !f.businessEmailValid || !f.businessTelValid then
    ([], { f with saveError := true })
  else
    let calls :=
      (if f.fields.title ≠ f.originals.title then
        [(EXT_PROFILE_KEY_TITLE, f.fields.title)] else []) ++
      (if f.fields.specialization ≠ f.originals.specialization then
        [(EXT_PROFILE_KEY_SPECIALIZATION, f.fields.specialization)] else []) ++
      (if f.fields.website ≠ f.originals.website then
        [(EXT_PROFILE_KEY_WEBSITE, f.fields.website)] else []) ++
      (if f.fields.furtherInfo ≠ f.originals.furtherInfo then
        [(EXT_PROFILE_KEY_FURTHER_INFO, f.fields.furtherInfo)] else []) ++
      (if f.fields.practiceName ≠ f.originals.practiceName then
        [(EXT_PROFILE_KEY_PRACTICE_NAME, f.fields.practiceName)] else []) ++
      (if f.fields.businessStreet ≠ f.originals.businessStreet then
        [(EXT_PROFILE_KEY_BUSINESS_STREET, f.fields.businessStreet)] else []) ++
      (if f.fields.businessStreetNr ≠ f.originals.businessStreetNr then
        [(EXT_PROFILE_KEY_BUSINESS_STREET_NR, f.fields.businessStreetNr)] else []) ++
      (if f.fields.businessCity ≠ f.originals.businessCity then
        [(EXT_PROFILE_KEY_BUSINESS_CITY, f.fields.businessCity)] else []) ++
      (if f.fields.businessPlz ≠ f.originals.businessPlz then
        [(EXT_PROFILE_KEY_BUSINESS_PLZ, f.fields.businessPlz)] else []) ++
      (if f.fields.businessEmail ≠ f.originals.businessEmail then
        [(EXT_PROFILE_KEY_BUSINESS_EMAIL, f.fields.businessEmail)] else []) ++
      (if f.fields.businessTel ≠ f.originals.businessTel then
        [(EXT_PROFILE_KEY_BUSINESS_TEL, f.fields.businessTel)] else [])
    (calls, { f with originals := f.fields, saveError := false })

/-! ## Operation traces over the store

Every state-changing entry point of the store, with its remote response
carried as oracle data, so that temporal claims ("until evicted or flushed",
"no stale return after invalidation") can be stated over arbitrary
subsequent operation sequences. -/

inductive StoreOp where
  | opFetchProfile (remote : Except RemoteErr Profile) (shouldThrow : Bool) (userId : String)
  | opGetOrFetchProfile (remote : Except RemoteErr Profile) (shouldThrow : Bool) (userId : String)
  | opFetchOnlyKnownProfile (remote : Except RemoteErr Profile) (rooms : List (List String)) (userId : String)
  | opFetchExtProp (remote : Except RemoteErr RawValue) (userId key : String)
  | opGetOrFetchExtProp (remote : Except RemoteErr RawValue) (userId key : String)
  | opSetExtProp (remoteOk : Bool) (localUser key : String) (v : ExtValue)
  | opDeleteExtProp (remoteOk : Bool) (localUser key : String)
  | opServerSupport (remote : Except RemoteErr Bool) (userId : String)
  | opMembershipEvent (m : MembershipRecord)
  | opFlush

/-- Apply one store operation. -/
def applyOp : StoreOp → UserProfilesStore → UserProfilesStore
  | .opFetchProfile r st u, s => (fetchProfile r st u s).2
  | .opGetOrFetchProfile r st u, s => (getOrFetchProfile r st u s).store
  | .opFetchOnlyKnownProfile r rooms u, s => (fetchOnlyKnownProfile r rooms u s).store
  | .opFetchExtProp r u k, s => (fetchExtendedProfileProperty r u k s).store
  | .opGetOrFetchExtProp r u k, s => (getOrFetchExtendedProfileProperty r u k s).store
  | .opSetExtProp ok lu k v, s => (setExtendedProfileProperty ok lu k v s).2
  | .opDeleteExtProp ok lu k, s => (deleteExtendedProfileProperty ok lu k s).2
  | .opServerSupport r u, s => (doesServerSupportExtendedProfiles r u s).2
  | .opMembershipEvent m, s => onRoomMembershipEvent m s
  | .opFlush, s => flush s

/-- Run a sequence of store operations. -/
def runOps (ops : List StoreOp) (s : UserProfilesStore) : UserProfilesStore :=
  ops.foldl (fun s op => applyOp op s) s

/-- Whether an operation is a (possibly delegated) profile fetch of `u` —
the only operations that can write `u`'s profiles-cache entry. -/
def opFetchesProfileOf (u : String) : StoreOp → Bool
  | .opFetchProfile _ _ v => decide (v = u)
  | .opGetOrFetchProfile _ _ v => decide (v = u)
  | _ => false

/-- Concrete pairwise-distinct user identifiers for exercising the
least-recently-used eviction scenario: 500 identifiers of strictly
increasing length (the 501st is the empty identifier used as the first
fetch). -/
def c3UserList : List String :=
  (List.range 500).map (fun i => String.mk (List.replicate (i + 1) 'a'))

/-- A concrete settings-form state with a modified but invalid business
email, for exercising the save gating. -/
def c10FormState : FormState :=
  { fields := { title := "Dr.", specialization := "", website := "", furtherInfo := ""
                practiceName := "", businessStreet := "", businessStreetNr := ""
                businessCity := "", businessPlz := "", businessEmail := "not an email"
                businessTel := "" }
    originals := { title := "", specialization := "", website := "", furtherInfo := ""
                   practiceName := "", businessStreet := "", businessStreetNr := ""
                   businessCity := "", businessPlz := "", businessEmail := ""
                   businessTel := "" }
    businessEmailValid := false
    businessTelValid := true
    saveError := false }

/-! ## Basic lemmas about `find?`, the LRU cache and association lists -/

/-- `find?` on a prefix either agrees with `find?` on the whole list or finds
nothing. -/
theorem find?_take_eq_or_none (p : α → Bool) :
    ∀ (l : List α) (n : Nat), (l.take n).find? p = l.find? p ∨ (l.take n).find? p = none
  | [], n => by simp
  | a :: t, 0 => by simp
  | a :: t, n + 1 => by
    rw [List.take_succ_cons]
    cases hp : p a with
    | true => rw [List.find?_cons_of_pos _ hp, List.find?_cons_of_pos _ hp]; exact Or.inl rfl
    | false =>
      rw [List.find?_cons_of_neg _ (by simp [hp]), List.find?_cons_of_neg _ (by simp [hp])]
      exact find?_take_eq_or_none p t n

/-- Filtering by a predicate implied by the search predicate does not change
the result of `find?`. -/
theorem find?_filter_eq (p q : α → Bool) (l : List α)
    (h : ∀ x, p x = true → q x = true) : (l.filter q).find? p = l.find? p := by
  induction l with
  | nil => simp
  | cons a t ih =>
    cases hq : q a with
    | true =>
      rw [List.filter_cons_of_pos hq]
      cases hp : p a with
      | true => rw [List.find?_cons_of_pos _ hp, List.find?_cons_of_pos _ hp]
      | false =>
        rw [List.find?_cons_of_neg _ (by simp [hp]), List.find?_cons_of_neg _ (by simp [hp])]
        exact ih
    | false =>
      rw [List.filter_cons_of_neg (by simp [hq])]
      have hp : p a = false := by
        cases hpa : p a
        · rfl
        · have := h a hpa
          rw [hq] at this
          exact absurd this (by simp)
      rw [List.find?_cons_of_neg _ (by simp [hp]), ih]

theorem LruCache.get_emptyCache [DecidableEq κ] (cap : Nat) (k : κ) :
    (LruCache.emptyCache cap : LruCache κ β).get k = none := rfl

theorem LruCache.capacity_set [DecidableEq κ] (m : LruCache κ β) (k : κ) (v : β) :
    (m.set k v).capacity = m.capacity := rfl

theorem LruCache.capacity_remove [DecidableEq κ] (m : LruCache κ β) (k : κ) :
    (m.remove k).capacity = m.capacity := rfl

/-- Reading back the key just written, in a cache with positive capacity. -/
theorem LruCache.get_set_self [DecidableEq κ] (m : LruCache κ β) (k : κ) (v : β)
    (h : 0 < m.capacity) : (m.set k v).get k = some v := by
  obtain ⟨n, hn⟩ : ∃ n, m.capacity = n + 1 := ⟨m.capacity - 1, by omega⟩
  unfold LruCache.set LruCache.get
  simp only [hn, List.take_succ_cons]
  rw [List.find?_cons_of_pos _ (by simp)]
  rfl

/-- Writing one key either leaves another key's value unchanged or evicts it. -/
theorem LruCache.get_set_other [DecidableEq κ] (m : LruCache κ β) (k k' : κ) (v : β)
    (h : k' ≠ k) : (m.set k v).get k' = m.get k' ∨ (m.set k v).get k' = none := by
  unfold LruCache.set LruCache.get
  simp only
  rcases find?_take_eq_or_none (fun e => decide (e.1 = k'))
      ((k, v) :: m.entries.filter (fun e => decide (e.1 ≠ k))) m.capacity with hf | hf
  · rw [hf, List.find?_cons_of_neg _ (by simp only [decide_eq_true_eq]; exact fun hh => h hh.symm),
      find?_filter_eq _ _ _ (fun x hx => by
        simp only [decide_eq_true_eq] at hx
        simp [hx, h])]
    exact Or.inl rfl
  · rw [hf]
    exact Or.inr rfl

/-- Removing a key makes it absent. -/
theorem LruCache.get_remove_self [DecidableEq κ] (m : LruCache κ β) (k : κ) :
    (m.remove k).get k = none := by
  unfold LruCache.remove LruCache.get
  simp only
  rw [List.find?_eq_none.mpr]
  · rfl
  · intro x hx
    have := List.of_mem_filter hx
    simp only [decide_eq_true_eq] at this
    simp [this]

/-- Removing one key leaves other keys unchanged. -/
theorem LruCache.get_remove_other [DecidableEq κ] (m : LruCache κ β) (k k' : κ)
    (h : k' ≠ k) : (m.remove k).get k' = m.get k' := by
  unfold LruCache.remove LruCache.get
  simp only
  rw [find?_filter_eq _ _ _ (fun x hx => by
    simp only [decide_eq_true_eq] at hx
    simp [hx, h])]

theorem assocGet_set_self [DecidableEq κ] (l : List (κ × β)) (k : κ) (v : β) :
    assocGet (assocSet l k v) k = some v := by
  unfold assocGet assocSet
  rw [List.find?_cons_of_pos _ (by simp)]
  rfl

theorem assocGet_set_other [DecidableEq κ] (l : List (κ × β)) (k k' : κ) (v : β)
    (h : k' ≠ k) : assocGet (assocSet l k v) k' = assocGet l k' := by
  unfold assocGet assocSet
  rw [List.find?_cons_of_neg _ (by simp only [decide_eq_true_eq]; exact fun hh => h hh.symm),
    find?_filter_eq _ _ _ (fun x hx => by
      simp only [decide_eq_true_eq] at hx
      simp [hx, h])]

theorem assocGet_remove_self [DecidableEq κ] (l : List (κ × β)) (k : κ) :
    assocGet (assocRemove l k) k = none := by
  unfold assocGet assocRemove
  rw [List.find?_eq_none.mpr]
  · rfl
  · intro x hx
    have := List.of_mem_filter hx
    simp only [decide_eq_true_eq] at this
    simp [this]


/-- A profile fetch of `v` leaves `u ≠ v`'s cached profile either unchanged
or evicted. -/
theorem getProfile_fetchProfile_other (r : Except RemoteErr Profile) (st : Bool)
    (v u : String) (s : UserProfilesStore) (h : v ≠ u) :
    getProfile (fetchProfile r st v s).2 u = getProfile s u ∨
      getProfile (fetchProfile r st v s).2 u = none := by
  cases r with
  | ok p =>
      simp only [fetchProfile, getProfile]
      exact LruCache.get_set_other _ _ _ _ (fun hh => h hh.symm)
  | error e =>
      simp only [fetchProfile, getProfile]
      split
      · split <;> exact Or.inl rfl
      · split <;> exact LruCache.get_set_other _ _ _ _ (fun hh => h hh.symm)

/-- A membership event leaves any user's cached profile either unchanged or
evicted. -/
theorem getProfile_membershipEvent (m : MembershipRecord) (s : UserProfilesStore)
    (u : String) :
    getProfile (onRoomMembershipEvent m s) u = getProfile s u ∨
      getProfile (onRoomMembershipEvent m s) u = none := by
  simp only [onRoomMembershipEvent, getProfile]
  split
  · split
    · exact Or.inl rfl
    · by_cases hu : m.userId = u
      · subst hu
        exact Or.inr (LruCache.get_remove_self _ _)
      · exact Or.inl (LruCache.get_remove_other _ _ _ (fun hh => hu hh.symm))
  · exact Or.inl rfl

/-- Frame lemma: an operation that is not a profile fetch of `u` leaves
`u`'s cached profile either unchanged or evicted (never replaced by a
different value). -/
theorem getProfile_applyOp_frame (op : StoreOp) (s : UserProfilesStore) (u : String)
    (h : opFetchesProfileOf u op = false) :
    getProfile (applyOp op s) u = getProfile s u ∨ getProfile (applyOp op s) u = none := by
  cases op with
  | opFetchProfile r st v =>
      have hv : v ≠ u := by
        simpa [opFetchesProfileOf] using h
      exact getProfile_fetchProfile_other r st v u s hv
  | opGetOrFetchProfile r st v =>
      have hv : v ≠ u := by
        simpa [opFetchesProfileOf] using h
      simp only [applyOp, getOrFetchProfile]
      cases hc : getProfile s v with
      | some p => exact Or.inl rfl
      | none => exact getProfile_fetchProfile_other r st v u s hv
  | opFetchOnlyKnownProfile r rooms v =>
      simp only [applyOp, fetchOnlyKnownProfile]
      split
      · cases r with
        | ok p => exact Or.inl rfl
        | error e =>
            simp only
            split <;> exact Or.inl rfl
      · exact Or.inl rfl
  | opFetchExtProp r v k =>
      simp only [applyOp, fetchExtendedProfileProperty]
      cases r with
      | ok raw => exact Or.inl rfl
      | error e => exact Or.inl rfl
  | opGetOrFetchExtProp r v k =>
      simp only [applyOp, getOrFetchExtendedProfileProperty]
      cases hc : getExtendedProfileProperty s v k with
      | some w => exact Or.inl rfl
      | none =>
          simp only [fetchExtendedProfileProperty]
          cases r with
          | ok raw => exact Or.inl rfl
          | error e => exact Or.inl rfl
  | opSetExtProp ok lu k v =>
      simp only [applyOp, setExtendedProfileProperty]
      split <;> exact Or.inl rfl
  | opDeleteExtProp ok lu k =>
      simp only [applyOp, deleteExtendedProfileProperty]
      split <;> exact Or.inl rfl
  | opServerSupport r v =>
      simp only [applyOp, doesServerSupportExtendedProfiles]
      cases hc : assocGet s.extendedProfileSupport (serverFromUserId v) with
      | some b => exact Or.inl rfl
      | none =>
          cases r with
          | ok b => exact Or.inl rfl
          | error e => exact Or.inl rfl
  | opMembershipEvent m => exact getProfile_membershipEvent m s u
  | opFlush => exact Or.inr rfl

/-- Trace frame lemma: over any operation sequence containing no profile
fetch of `u`, `u`'s cached profile is either still its old value or evicted. -/
theorem getProfile_runOps_frame (u : String) :
    ∀ (ops : List StoreOp) (s : UserProfilesStore),
      (∀ op ∈ ops, opFetchesProfileOf u op = false) →
      getProfile (runOps ops s) u = getProfile s u ∨ getProfile (runOps ops s) u = none
  | [], _, _ => Or.inl rfl
  | op :: ops, s, h => by
      have h1 := getProfile_applyOp_frame op s u (h op (List.mem_cons_self op ops))
      have h2 := getProfile_runOps_frame u ops (applyOp op s)
        (fun o ho => h o (List.mem_cons_of_mem _ ho))
      have hr : runOps (op :: ops) s = runOps ops (applyOp op s) := rfl
      rw [hr]
      rcases h2 with h2 | h2
      · rw [h2]; exact h1
      · exact Or.inr h2

theorem assocGet_remove_other [DecidableEq κ] (l : List (κ × β)) (k k' : κ)
    (h : k' ≠ k) : assocGet (assocRemove l k) k' = assocGet l k' := by
  unfold assocGet assocRemove
  rw [find?_filter_eq _ _ _ (fun x hx => by
    simp only [decide_eq_true_eq] at hx
    simp [hx, h])]

/-! ## Claim theorems -/

/-- C2: `setExtendedProfileProperty(K, V)` is a strict write-through on the
local user's identifier: when the remote write succeeds, the call returns
true and a subsequent `getExtendedProfileProperty(localUser, K)` returns V;
when the remote write fails, the call returns false (never throws — the
function is total) and the store is completely unchanged.
`deleteExtendedProfileProperty` behaves symmetrically for removal. -/
theorem setExtendedProfileProperty_writeThrough
    (s : UserProfilesStore) (localUser key : String) (v : ExtValue) :
    (setExtendedProfileProperty true localUser key v s).1 = true ∧
    getExtendedProfileProperty (setExtendedProfileProperty true localUser key v s).2
      localUser key = some v ∧
    setExtendedProfileProperty false localUser key v s = (false, s) ∧
    (deleteExtendedProfileProperty true localUser key s).1 = true ∧
    getExtendedProfileProperty (deleteExtendedProfileProperty true localUser key s).2
      localUser key = none ∧
    deleteExtendedProfileProperty false localUser key s = (false, s) := by
  refine ⟨rfl, ?_, rfl, rfl, ?_, rfl⟩
  · simp only [setExtendedProfileProperty, if_pos, getExtendedProfileProperty, extSetValue]
    rw [assocGet_set_self]
    simp only [Option.some_bind]
    exact assocGet_set_self _ _ _
  · simp only [deleteExtendedProfileProperty, if_pos, getExtendedProfileProperty, extRemoveValue]
    split
    · rw [assocGet_set_self]
      simp only [Option.some_bind]
      exact assocGet_remove_self _ _
    · next heq =>
        rw [heq]
        rfl

/-- C7: the extended-property fetch path is total over all raw value shapes:
null, string, number, boolean and non-null object values are stored and
returned as-is without a warning; an undefined or function-typed value is
coerced to null with a warning; and a remote failure resolves to null with
the store unchanged (the return type has no throwing alternative, so
failures are never thrown). -/
theorem fetchExtendedProfileProperty_totalCoercion
    (s : UserProfilesStore) (u k : String) :
    (∀ e : RemoteErr, fetchExtendedProfileProperty (.error e) u k s =
      { value := .null, warned := false, store := s }) ∧
    (∀ raw, (fetchExtendedProfileProperty (.ok raw) u k s).value = (coerceRawValue raw).1 ∧
      (fetchExtendedProfileProperty (.ok raw) u k s).warned = (coerceRawValue raw).2 ∧
      getExtendedProfileProperty (fetchExtendedProfileProperty (.ok raw) u k s).store u k =
        some (coerceRawValue raw).1) ∧
    coerceRawValue .undef = (.null, true) ∧
    coerceRawValue .func = (.null, true) ∧
    coerceRawValue .null = (.null, false) ∧
    (∀ t, coerceRawValue (.str t) = (.str t, false)) ∧
    (∀ n, coerceRawValue (.num n) = (.num n, false)) ∧
    (∀ b, coerceRawValue (.boolean b) = (.boolean b, false)) ∧
    (∀ fields, coerceRawValue (.obj fields) = (.obj fields, false)) := by
  refine ⟨fun e => rfl, fun raw => ⟨rfl, rfl, ?_⟩, rfl, rfl, rfl,
    fun t => rfl, fun n => rfl, fun b => rfl, fun fields => rfl⟩
  simp only [fetchExtendedProfileProperty, getExtendedProfileProperty, extSetValue]
  rw [assocGet_set_self]
  simp only [Option.some_bind]
  exact assocGet_set_self _ _ _

/-- C8: a single `getOrFetchProfile(U)` makes zero calls to
`RemoteDirectory.getProfileInfo` (hence at most one) when U's value is
already cached — returning the cached value with the store untouched — and
makes exactly one remote call, delegating to `fetchProfile`, when U is not
cached. -/
theorem getOrFetchProfile_remoteCallCount
    (r : Except RemoteErr Profile) (st : Bool) (u : String) (s : UserProfilesStore) :
    (∀ p, getProfile s u = some p →
      getOrFetchProfile r st u s = { outcome := .value p, store := s, remoteCalls := 0 }) ∧
    (getProfile s u = none →
      (getOrFetchProfile r st u s).remoteCalls = 1 ∧
      (getOrFetchProfile r st u s).store = (fetchProfile r st u s).2 ∧
      (getOrFetchProfile r st u s).outcome = (fetchProfile r st u s).1) := by
  constructor
  · intro p hp
    simp only [getOrFetchProfile, hp]
  · intro hp
    simp only [getOrFetchProfile, hp]
    exact ⟨trivial, trivial, trivial⟩

/-- Witness for C8: on a fresh store nothing is cached, so the fetch is
delegated with exactly one remote call; after that fetch the value is
cached, so a second call makes zero remote calls. -/
theorem getOrFetchProfile_remoteCallCount_witness :
    (getOrFetchProfile (.ok ⟨some "Alice", none⟩) false "@a:x" (emptyStore 500)).remoteCalls = 1 ∧
    (getOrFetchProfile (.ok ⟨some "Alice", none⟩) false "@a:x"
      (fetchProfile (.ok ⟨some "Alice", none⟩) false "@a:x" (emptyStore 500)).2).remoteCalls = 0 := by
  constructor
  · exact ((getOrFetchProfile_remoteCallCount (.ok ⟨some "Alice", none⟩) false "@a:x"
      (emptyStore 500)).2 rfl).1
  · have := (getOrFetchProfile_remoteCallCount (.ok ⟨some "Alice", none⟩) false "@a:x"
      (fetchProfile (.ok ⟨some "Alice", none⟩) false "@a:x" (emptyStore 500)).2).1
      (some ⟨some "Alice", none⟩) (by decide)
    rw [this]

/-- C4: lookup-error lifecycle of `fetchProfile(U)`.  Any previously
recorded error for U is cleared before the attempt, so a successful fetch
leaves no recorded error; a recognized failure without `shouldThrow`
resolves to not-found and records the error, which `getProfileLookupError`
then returns; an unrecognized failure resolves to not-found with no error
recorded; with `shouldThrow` set a failure is rethrown; and a failed fetch
followed by a successful fetch of the same identifier ends with the error
cleared. -/
theorem fetchProfile_lookupErrorLifecycle
    (s : UserProfilesStore) (u c : String) (p : Profile) (e : RemoteErr)
    (hcap : 0 < s.profileLookupErrors.capacity) :
    (∀ st, getProfileLookupError (fetchProfile (.ok p) st u s).2 u = none) ∧
    ((fetchProfile (.error ⟨true, c⟩) false u s).1 = .value none ∧
      getProfileLookupError (fetchProfile (.error ⟨true, c⟩) false u s).2 u =
        some ⟨true, c⟩) ∧
    ((fetchProfile (.error ⟨false, c⟩) false u s).1 = .value none ∧
      getProfileLookupError (fetchProfile (.error ⟨false, c⟩) false u s).2 u = none) ∧
    (fetchProfile (.error e) true u s).1 = .thrown e ∧
    getProfileLookupError (fetchProfile (.ok p) false u
      (fetchProfile (.error ⟨true, c⟩) false u s).2).2 u = none := by
  refine ⟨?_, ⟨rfl, ?_⟩, ⟨rfl, ?_⟩, rfl, ?_⟩
  · intro st
    simp only [fetchProfile, getProfileLookupError]
    exact LruCache.get_remove_self _ _
  · simp only [fetchProfile, getProfileLookupError]
    exact LruCache.get_set_self _ _ _ hcap
  · simp only [fetchProfile, getProfileLookupError]
    exact LruCache.get_remove_self _ _
  · simp only [fetchProfile, getProfileLookupError]
    exact LruCache.get_remove_self _ _

/-- Witness for C4, on a fresh store with the default capacity 500: a failed
fetch records its error, and a subsequent successful fetch clears it. -/
theorem fetchProfile_lookupErrorLifecycle_witness :
    getProfileLookupError
      (fetchProfile (.error ⟨true, "M_FORBIDDEN"⟩) false "@a:x" (emptyStore 500)).2 "@a:x" =
      some ⟨true, "M_FORBIDDEN"⟩ ∧
    getProfileLookupError (fetchProfile (.ok ⟨some "Alice", none⟩) false "@a:x"
      (fetchProfile (.error ⟨true, "M_FORBIDDEN"⟩) false "@a:x" (emptyStore 500)).2).2 "@a:x" =
      none := by
  have h := fetchProfile_lookupErrorLifecycle (emptyStore 500) "@a:x" "M_FORBIDDEN"
    ⟨some "Alice", none⟩ ⟨true, "M_FORBIDDEN"⟩ (by decide)
  exact ⟨h.2.1.2, h.2.2.2.2⟩

/-- C5: `fetchOnlyKnownProfile(U)` resolves to unknown-user with no network
call and no state change when U is neither cached as known nor sharing any
room with the local user; otherwise it returns a profile value (possibly
not-found) with exactly one remote call.  The known-profile cache is never
populated for an unverified user, and the already-cached short-circuit
produces exactly the same result as re-running the room-membership check
with U verified to share a room. -/
theorem fetchOnlyKnownProfile_gating
    (r : Except RemoteErr Profile) (rooms : List (List String)) (u : String)
    (s : UserProfilesStore) :
    (s.knownProfiles.get u = none → rooms.any (fun rm => rm.contains u) = false →
      fetchOnlyKnownProfile r rooms u s =
        { outcome := .unknownUser, store := s, remoteCalls := 0 }) ∧
    ((s.knownProfiles.get u ≠ none ∨ rooms.any (fun rm => rm.contains u) = true) →
      (∃ p, (fetchOnlyKnownProfile r rooms u s).outcome = .value p) ∧
      (fetchOnlyKnownProfile r rooms u s).remoteCalls = 1) ∧
    (s.knownProfiles.get u = none → rooms.any (fun rm => rm.contains u) = false →
      (fetchOnlyKnownProfile r rooms u s).store.knownProfiles.get u = none) ∧
    (s.knownProfiles.get u ≠ none →
      fetchOnlyKnownProfile r rooms u s = fetchOnlyKnownProfile r ([u] :: rooms) u s) := by
  have hgate : ∀ (hc : s.knownProfiles.get u ≠ none ∨
      rooms.any (fun rm => rm.contains u) = true),
      ((s.knownProfiles.get u).isSome || rooms.any (fun rm => rm.contains u)) = true := by
    intro hc
    rcases hc with hc | hc
    · rw [Option.isSome_iff_ne_none.mpr hc, Bool.true_or]
    · rw [hc, Bool.or_true]
  refine ⟨?_, ?_, ?_, ?_⟩
  · intro h1 h2
    simp only [fetchOnlyKnownProfile]
    rw [if_neg]
    rw [h1, h2]
    simp
  · intro hc
    simp only [fetchOnlyKnownProfile]
    rw [if_pos (hgate hc)]
    cases r with
    | ok p => exact ⟨⟨some p, rfl⟩, rfl⟩
    | error e => exact ⟨⟨none, rfl⟩, rfl⟩
  · intro h1 h2
    simp only [fetchOnlyKnownProfile]
    rw [if_neg]
    · exact h1
    · rw [h1, h2]
      simp
  · intro hc
    have h1 : ((s.knownProfiles.get u).isSome || rooms.any (fun rm => rm.contains u)) = true := by
      rw [Option.isSome_iff_ne_none.mpr hc, Bool.true_or]
    have h2 : ((s.knownProfiles.get u).isSome ||
        (([u] :: rooms).any (fun rm => rm.contains u))) = true := by
      rw [Option.isSome_iff_ne_none.mpr hc, Bool.true_or]
    simp only [fetchOnlyKnownProfile]
    rw [if_pos h1, if_pos h2]

/-- Witness for C5: on a fresh store with an empty room list, the fetch
resolves to unknown-user without touching the remote; once the user is in a
shared room, it performs the fetch. -/
theorem fetchOnlyKnownProfile_gating_witness :
    fetchOnlyKnownProfile (.ok ⟨some "Bob", none⟩) [] "@b:y" (emptyStore 500) =
      { outcome := .unknownUser, store := emptyStore 500, remoteCalls := 0 } ∧
    (fetchOnlyKnownProfile (.ok ⟨some "Bob", none⟩) [["@b:y", "@me:y"]] "@b:y"
      (emptyStore 500)).remoteCalls = 1 := by
  constructor
  · exact (fetchOnlyKnownProfile_gating (.ok ⟨some "Bob", none⟩) [] "@b:y"
      (emptyStore 500)).1 rfl rfl
  · exact ((fetchOnlyKnownProfile_gating (.ok ⟨some "Bob", none⟩) [["@b:y", "@me:y"]] "@b:y"
      (emptyStore 500)).2.1 (Or.inr (by decide))).2

/-- C6: a membership event whose freshly observed display name or avatar URL
differs (plain field-by-field comparison) from the cached Profile or
KnownProfile for that user identifier evicts that cache entry, so
`getProfile` (resp. `getOnlyKnownProfile`) then returns not-cached; and no
stale value is ever returned after invalidation — once not cached, the
entry stays not cached along any operation sequence containing no profile
fetch of that user, so a re-fetch is required before a profile can be
returned again. -/
theorem onRoomMembershipEvent_invalidation
    (s : UserProfilesStore) (m : MembershipRecord) (p : Profile) :
    (getProfile s m.userId = some (some p) →
      (p.displayName ≠ m.displayName ∨ p.avatarUrl ≠ m.avatarUrl) →
      getProfile (onRoomMembershipEvent m s) m.userId = none) ∧
    (getOnlyKnownProfile s m.userId = some (some p) →
      (p.displayName ≠ m.displayName ∨ p.avatarUrl ≠ m.avatarUrl) →
      getOnlyKnownProfile (onRoomMembershipEvent m s) m.userId = none) ∧
    (∀ u ops, getProfile s u = none →
      (∀ op ∈ ops, opFetchesProfileOf u op = false) →
      getProfile (runOps ops s) u = none) := by
  refine ⟨?_, ?_, ?_⟩
  · intro hc hmm
    have hfalse : profileMatchesMember p m = false := by
      rcases hmm with h1 | h1 <;> simp [profileMatchesMember, h1]
    simp only [getProfile] at hc
    simp only [onRoomMembershipEvent, getProfile, hc, hfalse]
    exact LruCache.get_remove_self _ _
  · intro hc hmm
    have hfalse : profileMatchesMember p m = false := by
      rcases hmm with h1 | h1 <;> simp [profileMatchesMember, h1]
    simp only [getOnlyKnownProfile] at hc
    simp only [onRoomMembershipEvent, getOnlyKnownProfile, hc, hfalse]
    exact LruCache.get_remove_self _ _
  · intro u ops h0 hops
    rcases getProfile_runOps_frame u ops s hops with h | h
    · rw [h, h0]
    · exact h

/-- Witness for C6, the spec's scenario: a profile for "@a:x" cached with
display name "Alice", then a membership event carrying display name
"Alice2"; afterwards `getProfile("@a:x")` returns not-cached. -/
theorem onRoomMembershipEvent_invalidation_witness :
    getProfile
      (onRoomMembershipEvent ⟨"@a:x", some "Alice2", none⟩
        (fetchProfile (.ok ⟨some "Alice", none⟩) false "@a:x" (emptyStore 500)).2)
      "@a:x" = none := by
  exact (onRoomMembershipEvent_invalidation
      (fetchProfile (.ok ⟨some "Alice", none⟩) false "@a:x" (emptyStore 500)).2
      ⟨"@a:x", some "Alice2", none⟩ ⟨some "Alice", none⟩).1
    (by decide) (Or.inl (by decide))

/-- C1: a user identifier never fetched is not cached — `getProfile`
returns not-cached on a fresh store and after any operation sequence that
contains no profile fetch of it.  After one successful `fetchProfile(U)`
(with positive cache capacity, default 500), `getProfile(U)` returns
exactly the fetched profile — as `some (some p)`, distinguished from the
confirmed-absent tombstone `some none` and from not-cached `none` — and
keeps doing so across any subsequent fetch-free operation sequence until
the entry is evicted or the store flushed (in which case it is not-cached,
never a different value).  `getProfile` takes no remote oracle, so it can
trigger no network access.  `flush` resets every entry to not-cached. -/
theorem getProfile_cacheLifecycle
    (cap : Nat) (u : String) (p : Profile) (st : Bool) (s : UserProfilesStore) :
    (∀ ops, (∀ op ∈ ops, opFetchesProfileOf u op = false) →
      getProfile (runOps ops (emptyStore cap)) u = none) ∧
    (0 < s.profiles.capacity →
      getProfile (fetchProfile (.ok p) st u s).2 u = some (some p) ∧
      (∀ ops, (∀ op ∈ ops, opFetchesProfileOf u op = false) →
        getProfile (runOps ops (fetchProfile (.ok p) st u s).2) u = some (some p) ∨
        getProfile (runOps ops (fetchProfile (.ok p) st u s).2) u = none)) ∧
    getProfile (flush s) u = none := by
  refine ⟨?_, ?_, rfl⟩
  · intro ops hops
    rcases getProfile_runOps_frame u ops (emptyStore cap) hops with h | h
    · rw [h]; rfl
    · exact h
  · intro hcap
    have hget : getProfile (fetchProfile (.ok p) st u s).2 u = some (some p) := by
      simp only [fetchProfile, getProfile]
      exact LruCache.get_set_self _ _ _ hcap
    refine ⟨hget, ?_⟩
    intro ops hops
    rcases getProfile_runOps_frame u ops (fetchProfile (.ok p) st u s).2 hops with h | h
    · rw [h, hget]
      exact Or.inl rfl
    · exact Or.inr h

/-- Witness for C1: fresh store of capacity 500; "@a:x" starts not-cached,
is cached exactly as fetched after one successful fetch, and is not-cached
again after a flush. -/
theorem getProfile_cacheLifecycle_witness :
    getProfile (runOps [] (emptyStore 500)) "@a:x" = none ∧
    getProfile (fetchProfile (.ok ⟨some "Alice", none⟩) false "@a:x" (emptyStore 500)).2
      "@a:x" = some (some ⟨some "Alice", none⟩) ∧
    (getProfile (runOps [StoreOp.opFlush]
        (fetchProfile (.ok ⟨some "Alice", none⟩) false "@a:x" (emptyStore 500)).2) "@a:x" =
          some (some ⟨some "Alice", none⟩) ∨
      getProfile (runOps [StoreOp.opFlush]
        (fetchProfile (.ok ⟨some "Alice", none⟩) false "@a:x" (emptyStore 500)).2) "@a:x" =
          none) := by
  have h := getProfile_cacheLifecycle 500 "@a:x" ⟨some "Alice", none⟩ false (emptyStore 500)
  refine ⟨h.1 [] (by intro op hop; cases hop), ?_, ?_⟩
  · exact (h.2.1 (by decide)).1
  · exact (h.2.1 (by decide)).2 [StoreOp.opFlush]
      (by intro op hop
          rcases List.mem_singleton.mp hop with rfl
          rfl)

/-! ## Least-recently-used eviction (C3) -/

theorem take_cons_take (x : α) (n : Nat) (l : List α) :
    (x :: l.take n).take n = (x :: l).take n := by
  cases n with
  | zero => rfl
  | succ m =>
      rw [List.take_succ_cons, List.take_succ_cons, List.take_take]
      rw [Nat.min_eq_left (Nat.le_succ m)]

/-- Folding writes of pairwise-distinct keys into an LRU cache yields the
reversed association list truncated to capacity. -/
theorem foldl_set_entries [DecidableEq κ] (cap : Nat) (f : κ → β) :
    ∀ (ks₂ ks₁ : List κ) (c : LruCache κ β),
      c.capacity = cap →
      c.entries = ((ks₁.map (fun k => (k, f k))).reverse).take cap →
      (ks₁ ++ ks₂).Nodup →
      (ks₂.foldl (fun m k => m.set k (f k)) c).entries =
        (((ks₁ ++ ks₂).map (fun k => (k, f k))).reverse).take cap
  | [], ks₁, c, hcap, hent, hnd => by
      rw [List.foldl_nil, List.append_nil, hent]
  | k :: ks₂, ks₁, c, hcap, hent, hnd => by
      rw [List.foldl_cons]
      have hknotin : k ∉ ks₁ := by
        intro hk
        have := List.disjoint_of_nodup_append hnd
        exact this hk (List.mem_cons_self k ks₂)
      have hent' : (c.set k (f k)).entries =
          (((ks₁ ++ [k]).map (fun kk => (kk, f kk))).reverse).take cap := by
        unfold LruCache.set
        simp only
        have hfil : c.entries.filter (fun e => decide (e.1 ≠ k)) = c.entries := by
          apply List.filter_eq_self.mpr
          intro x hx
          rw [hent] at hx
          have hx2 := List.take_subset cap _ hx
          rw [List.mem_reverse] at hx2
          rcases List.mem_map.mp hx2 with ⟨kk, hkk, rfl⟩
          simp only [decide_eq_true_eq]
          intro heq
          exact hknotin (heq ▸ hkk)
        rw [hfil, hent, hcap, take_cons_take]
        rw [List.map_append, List.reverse_append]
        rfl
      have hnd' : ((ks₁ ++ [k]) ++ ks₂).Nodup := by
        rw [List.append_assoc]
        exact hnd
      have := foldl_set_entries cap f ks₂ (ks₁ ++ [k]) (c.set k (f k)) hcap hent' hnd'
      rw [this, List.append_assoc]
      rfl

/-- Per-operation view of the successful-fetch fold: only the profiles cache
accumulates writes. -/
theorem profiles_foldl_fetch (prof : String → Profile) :
    ∀ (ks : List String) (s : UserProfilesStore),
      ((ks.foldl (fun s u => (fetchProfile (.ok (prof u)) false u s).2) s)).profiles =
        ks.foldl (fun m u => m.set u (some (prof u))) s.profiles
  | [], _ => rfl
  | k :: ks, s => by
      rw [List.foldl_cons, List.foldl_cons]
      exact profiles_foldl_fetch prof ks (fetchProfile (.ok (prof k)) false k s).2

/-- In a mapped association list, the entry for a present key is found with
its mapped value. -/
theorem find?_map_assoc_self (f : String → Option Profile) (u : String) :
    ∀ l : List String, u ∈ l →
      ((l.map (fun k => (k, f k))).find? (fun e => decide (e.1 = u))) = some (u, f u)
  | k :: t, h => by
      by_cases hk : k = u
      · subst hk
        rw [List.map_cons, List.find?_cons_of_pos _ (by simp)]
      · rw [List.map_cons, List.find?_cons_of_neg _ (by simp [hk])]
        exact find?_map_assoc_self f u t ((List.mem_cons.mp h).resolve_left
          (fun hh => hk hh.symm))

/-- C3: the profile cache is least-recently-used with capacity 500: starting
from a fresh store and fetching profiles for 501 pairwise-distinct user
identifiers sequentially (all successfully), exactly the first identifier's
entry has been evicted — `getProfile` for it returns not-cached — while
each of the other 500 identifiers is still cached with its fetched profile. -/
theorem profileCache_lruEviction501
    (u0 : String) (rest : List String) (prof : String → Profile)
    (hnd : (u0 :: rest).Nodup) (hlen : rest.length = 500) :
    getProfile ((u0 :: rest).foldl
      (fun s u => (fetchProfile (.ok (prof u)) false u s).2) (emptyStore 500)) u0 = none ∧
    ∀ u ∈ rest,
      getProfile ((u0 :: rest).foldl
        (fun s u => (fetchProfile (.ok (prof u)) false u s).2) (emptyStore 500)) u =
          some (some (prof u)) := by
  have hprof := profiles_foldl_fetch prof (u0 :: rest) (emptyStore 500)
  have hent := foldl_set_entries 500 (fun u => some (prof u)) (u0 :: rest) []
    (LruCache.emptyCache 500) rfl rfl hnd
  have hentries : ((u0 :: rest).foldl
      (fun s u => (fetchProfile (.ok (prof u)) false u s).2) (emptyStore 500)).profiles.entries =
        (rest.map (fun k => (k, some (prof k)))).reverse := by
    rw [hprof]
    have hemp : (emptyStore 500).profiles = (LruCache.emptyCache 500 : LruCache String (Option Profile)) := rfl
    rw [hemp, hent]
    rw [List.nil_append, List.map_cons, List.reverse_cons]
    have hl : ((rest.map (fun k => (k, some (prof k)))).reverse).length = 500 := by
      rw [List.length_reverse, List.length_map, hlen]
    rw [← hl, List.take_left]
  have hu0 : u0 ∉ rest := (List.nodup_cons.mp hnd).1
  constructor
  · simp only [getProfile, LruCache.get, hentries]
    rw [List.find?_eq_none.mpr]
    · rfl
    · intro x hx
      rw [List.mem_reverse] at hx
      rcases List.mem_map.mp hx with ⟨kk, hkk, rfl⟩
      simp only [decide_eq_true_eq]
      intro hh
      exact hu0 (hh ▸ hkk)
  · intro u hu
    simp only [getProfile, LruCache.get, hentries]
    rw [← List.map_reverse, find?_map_assoc_self (fun k => some (prof k)) u rest.reverse
      (List.mem_reverse.mpr hu)]
    rfl

/-- Witness for C3: the empty identifier followed by 500 identifiers of
strictly increasing length; after the 501 sequential fetches the first
identifier is evicted. -/
theorem profileCache_lruEviction501_witness :
    getProfile ((("" :: c3UserList)).foldl
      (fun s u => (fetchProfile (.ok ⟨some u, none⟩) false u s).2) (emptyStore 500)) "" =
        none := by
  have hinj : Function.Injective (fun i : Nat => String.mk (List.replicate (i + 1) 'a')) := by
    intro i j h
    have h2 : List.replicate (i + 1) 'a' = List.replicate (j + 1) 'a' := congrArg String.data h
    have h3 := congrArg List.length h2
    rw [List.length_replicate, List.length_replicate] at h3
    omega
  have hnodup : c3UserList.Nodup := (List.nodup_range 500).map hinj
  have hnotmem : "" ∉ c3UserList := by
    intro hmem
    rcases List.mem_map.mp hmem with ⟨i, _, hi⟩
    have h2 : List.replicate (i + 1) 'a' = ([] : List Char) := congrArg String.data hi
    have h3 := congrArg List.length h2
    rw [List.length_replicate] at h3
    simp at h3
  have hnd : ("" :: c3UserList).Nodup := List.nodup_cons.mpr ⟨hnotmem, hnodup⟩
  have hlen : c3UserList.length = 500 := by
    unfold c3UserList
    rw [List.length_map, List.length_range]
  exact (profileCache_lruEviction501 "" c3UserList (fun u => ⟨some u, none⟩) hnd hlen).1

/-! ## Widget permission pre-approval (C9) -/

/-- The executable substring test agrees with the declarative decomposition. -/
theorem containsSubstr_iff (s pat : String) :
    containsSubstr s pat = true ↔ SubstrShape s pat := by
  unfold containsSubstr SubstrShape
  rw [List.any_eq_true]
  constructor
  · rintro ⟨i, hi, hdec⟩
    rw [decide_eq_true_eq] at hdec
    refine ⟨s.toList.take i, (s.toList.drop i).drop pat.toList.length, ?_⟩
    have h2 := List.take_append_drop pat.toList.length (s.toList.drop i)
    rw [hdec] at h2
    rw [List.append_assoc, h2, List.take_append_drop]
  · rintro ⟨pre, post, heq⟩
    refine ⟨pre.length, ?_, ?_⟩
    · rw [List.mem_range]
      have h1 : s.toList.length = (pre.length + pat.toList.length) + post.length := by
        rw [heq, List.length_append, List.length_append]
      omega
    · rw [decide_eq_true_eq, heq, List.append_assoc, List.drop_left, List.take_left]

/-- C9: `preapproveCapabilities` resolves, for every widget whose template
URL is defined and contains the substring "api.healthchat.ch", to a set with
exactly the requested capabilities (all approved); for every other widget —
including one whose template URL is undefined — it resolves to `none`,
deferring to the default approval behaviour.  Being a total function, it
never throws. -/
theorem preapproveCapabilities_policy (w : Widget) (req : List String) :
    (∀ url, w.templateUrl = some url → SubstrShape url healthchatDomain →
      preapproveCapabilities w req = some req) ∧
    (∀ url, w.templateUrl = some url → ¬ SubstrShape url healthchatDomain →
      preapproveCapabilities w req = none) ∧
    (w.templateUrl = none → preapproveCapabilities w req = none) := by
  refine ⟨?_, ?_, ?_⟩
  · intro url hurl hshape
    simp only [preapproveCapabilities, hurl]
    rw [if_pos ((containsSubstr_iff url healthchatDomain).mpr hshape)]
  · intro url hurl hshape
    simp only [preapproveCapabilities, hurl]
    rw [if_neg (fun hc => hshape ((containsSubstr_iff url healthchatDomain).mp hc))]
  · intro hurl
    simp only [preapproveCapabilities, hurl]

/-- Witness for C9: a widget served from the health-chat API domain gets all
requested capabilities approved; a widget without a template URL defers. -/
theorem preapproveCapabilities_policy_witness :
    preapproveCapabilities ⟨some "https://api.healthchat.ch/widget"⟩ ["m.capability.screenshot"] =
      some ["m.capability.screenshot"] ∧
    preapproveCapabilities ⟨none⟩ ["m.capability.screenshot"] = none := by
  constructor
  · exact (preapproveCapabilities_policy ⟨some "https://api.healthchat.ch/widget"⟩
        ["m.capability.screenshot"]).1 "https://api.healthchat.ch/widget" rfl
      ⟨"https://".toList, "/widget".toList, by decide⟩
  · exact (preapproveCapabilities_policy ⟨none⟩ ["m.capability.screenshot"]).2.2 rfl

/-! ## Extended profile settings validation (C10) -/

/-- The executable domain matcher agrees with the declarative decomposition
of `[^\s@]+\.[^\s@]+`. -/
theorem emailDomainOk_iff (d : List Char) :
    emailDomainOk d = true ↔
      ∃ b c, d = b ++ '.' :: c ∧ b ≠ [] ∧ c ≠ [] ∧
        (∀ x ∈ b, emailAtom x = true) ∧ (∀ x ∈ c, emailAtom x = true) := by
  unfold emailDomainOk
  rw [Bool.and_eq_true, List.all_eq_true, List.any_eq_true]
  constructor
  · rintro ⟨hall, j, hj, hcond⟩
    rw [List.mem_range] at hj
    simp only [Bool.and_eq_true, decide_eq_true_eq] at hcond
    obtain ⟨⟨hdot, hjpos⟩, hjlt⟩ := hcond
    have hdj : d.getD j ' ' = d[j] := by
      rw [List.getD_eq_getElem?_getD, List.getElem?_eq_getElem hj]
      rfl
    rw [hdj] at hdot
    refine ⟨d.take j, d.drop (j + 1), ?_, ?_, ?_, ?_, ?_⟩
    · conv_lhs => rw [← List.take_append_drop j d]
      rw [← List.getElem_cons_drop d j hj, hdot]
    · intro hnil
      have hlen := congrArg List.length hnil
      rw [List.length_take, Nat.min_eq_left (Nat.le_of_lt hj)] at hlen
      simp at hlen
      omega
    · intro hnil
      have hlen := congrArg List.length hnil
      rw [List.length_drop] at hlen
      simp at hlen
      omega
    · intro x hx
      exact hall x (List.take_subset j d hx)
    · intro x hx
      exact hall x (List.drop_subset (j + 1) d hx)
  · rintro ⟨b, c, rfl, hb, hc, hball, hcall⟩
    have hdotatom : emailAtom '.' = true := by decide
    refine ⟨?_, b.length, ?_, ?_⟩
    · intro x hx
      rcases List.mem_append.mp hx with h | h
      · exact hball x h
      · rcases List.mem_cons.mp h with rfl | h
        · exact hdotatom
        · exact hcall x h
    · rw [List.mem_range, List.length_append, List.length_cons]
      omega
    · simp only [Bool.and_eq_true, decide_eq_true_eq]
      have hget : (b ++ '.' :: c).getD b.length ' ' = '.' := by
        rw [List.getD_eq_getElem?_getD, List.getElem?_append_right (Nat.le_refl _)]
        simp
      refine ⟨⟨hget, List.length_pos.mpr hb⟩, ?_⟩
      rw [List.length_append, List.length_cons]
      have := List.length_pos.mpr hc
      omega

/-- The executable email matcher agrees with the declarative decomposition
of the full anchored pattern. -/
theorem matchesEmailRe_iff (s : String) :
    matchesEmailRe s = true ↔ EmailShape s.toList := by
  simp only [matchesEmailRe]
  unfold EmailShape
  rw [List.any_eq_true]
  constructor
  · rintro ⟨i, hi, hcond⟩
    rw [List.mem_range] at hi
    simp only [Bool.and_eq_true, decide_eq_true_eq] at hcond
    obtain ⟨⟨⟨hat, hipos⟩, hlocal⟩, hdom⟩ := hcond
    have hdj : s.toList.getD i ' ' = s.toList[i] := by
      rw [List.getD_eq_getElem?_getD, List.getElem?_eq_getElem hi]
      rfl
    rw [hdj] at hat
    obtain ⟨b, c, hbc, hb, hc, hball, hcall⟩ := (emailDomainOk_iff _).mp hdom
    refine ⟨s.toList.take i, b, c, ?_, ?_, hb, hc, ?_, hball, hcall⟩
    · conv_lhs => rw [← List.take_append_drop i s.toList]
      rw [← List.getElem_cons_drop s.toList i hi, hat, hbc]
    · intro hnil
      have hlen := congrArg List.length hnil
      rw [List.length_take, Nat.min_eq_left (Nat.le_of_lt hi)] at hlen
      simp at hlen
      omega
    · intro x hx
      exact List.all_eq_true.mp hlocal x hx
  · rintro ⟨a, b, c, heq, ha, hb, hc, haall, hball, hcall⟩
    refine ⟨a.length, ?_, ?_⟩
    · rw [List.mem_range, heq, List.length_append, List.length_cons]
      omega
    · simp only [Bool.and_eq_true, decide_eq_true_eq]
      have hget : s.toList.getD a.length ' ' = '@' := by
        rw [heq, List.getD_eq_getElem?_getD, List.getElem?_append_right (Nat.le_refl _)]
        simp
      have htake : s.toList.take a.length = a := by
        rw [heq]
        exact List.take_left a _
      refine ⟨⟨⟨hget, List.length_pos.mpr ha⟩, ?_⟩, ?_⟩
      · rw [htake, List.all_eq_true]
        exact haall
      · have hdrop : s.toList.drop (a.length + 1) = b ++ '.' :: c := by
          rw [heq]
          have hassoc : a ++ '@' :: (b ++ '.' :: c) = (a ++ ['@']) ++ (b ++ '.' :: c) := by
            rw [List.append_assoc]
            rfl
          rw [hassoc]
          have hlen2 : (a ++ ['@']).length = a.length + 1 := by
            rw [List.length_append, List.length_singleton]
          rw [← hlen2, List.drop_left]
        rw [hdrop]
        exact (emailDomainOk_iff _).mpr ⟨b, c, rfl, hb, hc, hball, hcall⟩

/-- The executable telephone matcher agrees with the declarative shape. -/
theorem matchesTelRe_iff (s : String) :
    matchesTelRe s = true ↔ TelShape s.toList := by
  unfold matchesTelRe TelShape
  rw [Bool.and_eq_true, List.all_eq_true]
  constructor
  · rintro ⟨h1, h2⟩
    refine ⟨?_, h2⟩
    intro hnil
    rw [hnil] at h1
    simp at h1
  · rintro ⟨h1, h2⟩
    refine ⟨?_, h2⟩
    cases hl : s.toList with
    | nil => exact absurd hl h1
    | cons a t => rfl

/-- C10: in the extended-profile settings form, a business email is marked
valid exactly when it is empty or decomposes as the anchored pattern
local@domain.tail over `[^\s@]` characters, and a business telephone is
marked valid exactly when it is empty or consists solely of digits, spaces,
'+', '-', '(' and ')'; and when either validity flag is false, `onSave`
issues no `setExtendedProfileProperty` call at all — and, when the form is
modified (so the initial early-return does not fire first), sets the
save-error flag — so invalid contact data is never written to the remote or
the cache. -/
theorem extendedProfileContactValidation (v : String) (f : FormState) :
    ((onBusinessEmailChanged v f).businessEmailValid = true ↔
      (v = "" ∨ EmailShape v.toList)) ∧
    ((onBusinessTelChanged v f).businessTelValid = true ↔
      (v = "" ∨ TelShape v.toList)) ∧
    ((f.businessEmailValid = false ∨ f.businessTelValid = false) →
      (onSave f).1 = [] ∧
      (isModified f = true → (onSave f).2.saveError = true)) := by
  refine ⟨?_, ?_, ?_⟩
  · simp only [onBusinessEmailChanged]
    rw [Bool.or_eq_true, decide_eq_true_eq, matchesEmailRe_iff]
  · simp only [onBusinessTelChanged]
    rw [Bool.or_eq_true, decide_eq_true_eq, matchesTelRe_iff]
  · intro hinv
    by_cases hm : isModified f = false
    · constructor
      · simp only [onSave, if_pos hm]
      · intro hm2
        rw [hm2] at hm
        exact absurd hm (by simp)
    · have hcond : (!f.businessEmailValid || !f.businessTelValid) = true := by
        rcases hinv with h | h <;> rw [h] <;> simp
      constructor
      · simp only [onSave, if_neg hm, if_pos hcond]
      · intro _
        simp only [onSave, if_neg hm, if_pos hcond]

/-- Witness for C10: "doctor@example.com" is marked valid, "not an email" is
marked invalid, and saving a modified form whose email flag is false issues
no write and raises the save error. -/
theorem extendedProfileContactValidation_witness :
    (onBusinessEmailChanged "doctor@example.com" c10FormState).businessEmailValid = true ∧
    (onSave c10FormState).1 = [] ∧
    (onSave c10FormState).2.saveError = true := by
  refine ⟨?_, ?_, ?_⟩
  · exact (extendedProfileContactValidation "doctor@example.com" c10FormState).1.mpr
      (Or.inr ⟨"doctor".toList, "example".toList, "com".toList, by decide, by decide,
        by decide, by decide, by decide, by decide, by decide⟩)
  · exact ((extendedProfileContactValidation "x" c10FormState).2.2 (Or.inl rfl)).1
  · exact ((extendedProfileContactValidation "x" c10FormState).2.2 (Or.inl rfl)).2 (by decide)
